import Mathlib

/-!
Shallow embedding of the meal/category selection engine of the
toddler-lunch repository (src/mealGenerator.js, plus the item-replacement
caller in the UI layer), together with theorems settling the spec claims.

Modelling conventions:
* JS records become structures; the sheet columns "Item" and "Last Used"
  become the fields `item` and `lastUsed`.
* JS strings are Lean `String`s; a missing sheet field is the empty string
  (the sheet adapter substitutes "" for absent cells).
* A JS `Date` is its time value in milliseconds since the epoch, as `Int`;
  an Invalid Date (NaN time value) is `none` in `Option Int`.
* The asynchronous sheet I/O is collapsed: catalog, schedule and grocery
  list are passed in as values, and the `updateLastUsed` + reload cycle of
  `generateMealsForToday` becomes an explicit catalog update.
-/

namespace ToddlerLunch

/-- A row of the Items sheet as produced by the sheets adapter: the columns
used by the generator. `item` is the "Item" column (the name, used as key),
the four category columns hold the marker string "y" or anything else, and
`lastUsed` is the "Last Used" column. -/
structure Item where
  item : String
  carb : String
  protein : String
  fruit : String
  veggie : String
  lastUsed : String
deriving DecidableEq, Repr, Inhabited

/-- A row of the Schedule sheet: a meal slot with name, display time and the
four category requirement columns. -/
structure ScheduledMeal where
  name : String
  time : String
  carb : String
  protein : String
  fruit : String
  veggie : String
deriving DecidableEq, Repr

/-- The meal object built by `generateSingleMeal`. -/
structure Meal where
  name : String
  time : String
  items : List Item
  requiredCategories : List String
deriving DecidableEq, Repr

/-- `getRequiredCategories` of mealGenerator.js: push each category tag whose
schedule column equals the literal "y", in the fixed order
Carb, Protein, Fruit, Veggie. -/
def getRequiredCategories (scheduledMeal : ScheduledMeal) : List String :=
  (if scheduledMeal.carb = "y" then ["Carb"] else []) ++
  (if scheduledMeal.protein = "y" then ["Protein"] else []) ++
  (if scheduledMeal.fruit = "y" then ["Fruit"] else []) ++
  (if scheduledMeal.veggie = "y" then ["Veggie"] else [])

/-- `getItemCategories` of mealGenerator.js: same construction over an item's
category columns. -/
def getItemCategories (item : Item) : List String :=
  (if item.carb = "y" then ["Carb"] else []) ++
  (if item.protein = "y" then ["Protein"] else []) ++
  (if item.fruit = "y" then ["Fruit"] else []) ++
  (if item.veggie = "y" then ["Veggie"] else [])

/-- `categoriesMatch` of mealGenerator.js: equal lengths and mutual
set-membership (the source builds two Sets and checks both inclusions). -/
def categoriesMatch (categories1 categories2 : List String) : Bool :=
  categories1.length = categories2.length &&
    categories1.all (fun cat => categories2.contains cat) &&
    categories2.all (fun cat => categories1.contains cat)

/-! ### Date parsing (`parseDate`) and the availability ordering

`parseDate` returns a JS `Date`; we model the Date by its time value, with
`none` standing for an Invalid Date (NaN time value). The ECMAScript
`Date` constructor never throws on any argument, so the source's
`try`/`catch` wrapper is unreachable for string inputs and is not modelled.
-/

/-- Days from the epoch (1970-01-01) of the civil date y-m-d (m in 1..12,
d arbitrary, rolling over). Standard civil-from-days arithmetic. -/
def daysFromCivil (y m d : Int) : Int :=
  let yAdj : Int := y - (if m ≤ 2 then 1 else 0)
  let era : Int := (if 0 ≤ yAdj then yAdj else yAdj - 399) / 400
  let yoe : Int := yAdj - era * 400
  let doy : Int := (153 * (m + (if 2 < m then -3 else 9)) + 2) / 5 + d - 1
  let doe : Int := yoe * 365 + yoe / 4 - yoe / 100 + doy
  era * 146097 + doe - 719468

/-- Model of the ECMAScript `new Date(year, monthIndex, day)` constructor
(numeric arguments): epoch milliseconds, with the 0-based month index and
the day rolling over, and two-digit years mapped to 1900+y. The host builds
this Date in local time; the model uses UTC (no theorem depends on the
offset). -/
def jsDateYMD (year monthIndex day : Int) : Int :=
  let fullYear : Int := if 0 ≤ year ∧ year ≤ 99 then year + 1900 else year
  let ym : Int := fullYear * 12 + monthIndex
  let y : Int := ym.fdiv 12
  let m : Int := ym.fmod 12 + 1
  (daysFromCivil y m 1 + (day - 1)) * 86400000

/-- Splitting a character list at every occurrence of a separator character
(the model of `String.split` with a one-character separator, working over
the string's character list). -/
def splitOnChar (sep : Char) : List Char → List (List Char)
  | [] => [[]]
  | x :: xs =>
    match splitOnChar sep xs with
    | [] => [[x]]
    | y :: ys => if x = sep then [] :: y :: ys else (x :: y) :: ys

/-- Digits of a string read as a natural number; `none` unless the string is
non-empty and all digits. -/
def digitsToNat (chars : List Char) : Option Nat :=
  if chars ≠ [] ∧ chars.all Char.isDigit then
    some (chars.foldl (fun acc c => acc * 10 + (c.toNat - 48)) 0)
  else none

/-- Whitespace trim over a character list (the JS ToNumber first trims). -/
def trimChars (chars : List Char) : List Char :=
  ((chars.dropWhile Char.isWhitespace).reverse.dropWhile Char.isWhitespace).reverse

/-- Model of ECMAScript `ToNumber` on the strings this program feeds to the
`Date(year, month, day)` constructor: optional surrounding spaces, optional
sign, decimal digits; an empty (trimmed) string is 0. Anything else (and the
absent value `undefined`, passed in as `none`) is NaN, modelled as `none`. -/
def jsToNumber (s : Option (List Char)) : Option Int :=
  match s with
  | none => none
  | some str =>
    match trimChars str with
    | [] => some 0
    | '-' :: rest => (digitsToNat rest).map (fun n => -(n : Int))
    | '+' :: rest => (digitsToNat rest).map (fun n => (n : Int))
    | chars => (digitsToNat chars).map (fun n => (n : Int))

/-- Parse "YYYY-MM-DD" (exact digit counts, month 1..12, day 1..31). -/
def parseIsoDatePart (s : List Char) : Option (Int × Int × Int) :=
  match splitOnChar '-' s with
  | [ys, ms, ds] =>
    if ys.length = 4 ∧ ms.length = 2 ∧ ds.length = 2 then
      match digitsToNat ys, digitsToNat ms, digitsToNat ds with
      | some y, some m, some d =>
        if 1 ≤ m ∧ m ≤ 12 ∧ 1 ≤ d ∧ d ≤ 31 then some ((y : Int), (m : Int), (d : Int))
        else none
      | _, _, _ => none
    else none
  | _ => none

/-- Parse "HH:MM:SS" or "HH:MM:SS.mmm" into milliseconds into the day. -/
def parseIsoTimePart (s : List Char) : Option Int :=
  let core := fun (hs ms ss : List Char) (milli : Nat) =>
    if hs.length = 2 ∧ ms.length = 2 ∧ ss.length = 2 then
      match digitsToNat hs, digitsToNat ms, digitsToNat ss with
      | some h, some mi, some sec =>
        if h ≤ 23 ∧ mi ≤ 59 ∧ sec ≤ 59 then
          some (((h * 3600 + mi * 60 + sec) * 1000 + milli : Nat) : Int)
        else none
      | _, _, _ => none
    else none
  match splitOnChar ':' s with
  | [hs, ms, ss] =>
    match ss with
    | s0 :: s1 :: '.' :: frac =>
      if frac.length = 3 then
        match digitsToNat frac with
        | some milli => core hs ms [s0, s1] milli
        | none => none
      else none
    | _ => core hs ms ss 0
  | _ => none

/-- Model of the host's generic `new Date(string)` parse, restricted to the
formats this program stores and reads back: ISO "YYYY-MM-DD" (UTC) and ISO
"YYYY-MM-DDTHH:MM:SS(.mmm)Z" timestamps (the format `toISOString` writes).
Every other string — in particular the literal "never" — yields an Invalid
Date, i.e. `none`. -/
def jsDateParse (s : List Char) : Option Int :=
  match splitOnChar 'T' s with
  | [datePart] =>
    match parseIsoDatePart datePart with
    | some (y, m, d) => some (daysFromCivil y m d * 86400000)
    | none => none
  | [datePart, timePart] =>
    match timePart.reverse with
    | 'Z' :: revRest =>
      match parseIsoDatePart datePart, parseIsoTimePart revRest.reverse with
      | some (y, m, d), some millis => some (daysFromCivil y m d * 86400000 + millis)
      | _, _ => none
    | _ => none
  | _ => none

/-- `parseDate` of mealGenerator.js. A falsy (empty) value is epoch zero; a
string containing both 'T' and 'Z' goes through the full Date-string parse;
a string containing '/' is split and fed to `new Date(year, month-1, day)`
(string arguments coerced by ToNumber, missing parts being `undefined`);
everything else goes through the generic Date-string parse. `none` is an
Invalid Date (NaN time value), not an error: nothing in the source body can
throw on a string input, so the catch branch returning epoch zero is dead
code. String inspection works over the string's character list. -/
def parseDate (dateString : String) : Option Int :=
  if dateString = "" then some 0
  else if dateString.data.contains 'T' && dateString.data.contains 'Z' then
    jsDateParse dateString.data
  else if dateString.data.contains '/' then
    let parts := splitOnChar '/' dateString.data
    match jsToNumber parts[0]?, jsToNumber parts[1]?, jsToNumber parts[2]? with
    | some month, some day, some year => some (jsDateYMD year (month - 1) day)
    | _, _, _ => none
  else jsDateParse dateString.data

/-- `a.Item.localeCompare(b.Item)` modelled by code-point comparison. -/
def localeCompareInt (a b : String) : Int :=
  if a < b then -1 else if a = b then 0 else 1

/-- The sort comparator of `getAvailableItems`: primary key the difference of
the parsed dates (oldest first), secondary key the item name. JS arithmetic
on an Invalid Date produces NaN, and `NaN !== 0` holds, so the comparator
returns NaN (`none`) whenever either date is invalid — the name tie-break is
then skipped. -/
def itemCompare (a b : Item) : Option Int :=
  match parseDate a.lastUsed, parseDate b.lastUsed with
  | some dateA, some dateB =>
    let dateDiff := dateA - dateB
    if dateDiff ≠ 0 then some dateDiff else some (localeCompareInt a.item b.item)
  | _, _ => none

/-- "a need not be put after b" for the stable sort: a comparator result that
is NaN or ≤ 0 leaves the pair in order (ES2019 sort is stable; a NaN
comparator result causes no exchange). -/
def itemLe (a b : Item) : Bool :=
  match itemCompare a b with
  | some v => v ≤ 0
  | none => true

/-- Stable insertion step: `x` is placed after every element already in the
list that need not come after it (so elements comparing equal, or with a NaN
comparator result, keep their original relative order). -/
def insertItem (x : Item) : List Item → List Item
  | [] => [x]
  | y :: ys => if itemLe y x then y :: insertItem x ys else x :: y :: ys

/-- `Array.prototype.sort` with the comparator above, as a stable sort
(ES2019 requires sort stability): left-to-right stable insertion sort. -/
def jsSortItems (items : List Item) : List Item :=
  items.foldl (fun acc x => insertItem x acc) []

/-- `getAvailableItems` of mealGenerator.js: drop items on the grocery list,
drop the excluded items (by name), sort by the comparator. -/
def getAvailableItems (items : List Item) (groceryList : List String)
    (excludeItems : List Item) : List Item :=
  let excludeNames := excludeItems.map (fun item => item.item)
  let filteredItems := items.filter
    (fun item => ¬ groceryList.contains item.item ∧ ¬ excludeNames.contains item.item)
  jsSortItems filteredItems

/-! ### The two-phase selection (`findOptimalItemCombination`) -/

/-- `findSingleItemSolution` of mealGenerator.js: first item (in availability
order) whose category set matches the required categories exactly. -/
def findSingleItemSolution (requiredCategories : List String)
    (availableItems : List Item) : Option Item :=
  availableItems.find? (fun item => categoriesMatch (getItemCategories item) requiredCategories)

/-- The Set.add fold of the source: add each category not already present,
in order. -/
def addCats (covered : List String) (cats : List String) : List String :=
  cats.foldl (fun acc c => if acc.contains c then acc else acc ++ [c]) covered

/-- The scan body of `findGreedySolution`: an item is taken iff it has no
category already covered (`hasConflict`), no category outside the
requirements (`hasExtra`), and covers at least one new category. -/
def viableItem (requiredCategories coveredCategories : List String) (item : Item) : Bool :=
  let itemCategories := getItemCategories item
  let hasConflict := itemCategories.any (fun cat => coveredCategories.contains cat)
  let hasExtra := itemCategories.any (fun cat => ¬ requiredCategories.contains cat)
  let newCoverage := (itemCategories.filter
    (fun cat => requiredCategories.contains cat ∧ ¬ coveredCategories.contains cat)).length
  !hasConflict && !hasExtra && decide (0 < newCoverage)

/-- The inner `for` scan of `findGreedySolution`: first viable item of the
remaining list, returned with the sublists before and after it (the source
records its index and later splices it out). -/
def findViableSplit (requiredCategories coveredCategories : List String) :
    List Item → Option (List Item × Item × List Item)
  | [] => none
  | item :: rest =>
    if viableItem requiredCategories coveredCategories item then some ([], item, rest)
    else
      match findViableSplit requiredCategories coveredCategories rest with
      | some (before, sel, after) => some (item :: before, sel, after)
      | none => none

/-- The `while` loop of `findGreedySolution`, fuel-indexed (each iteration
removes one element from the remaining list, so `remainingItems.length` fuel
is enough — see `findGreedySolution`). State: accumulated selection, covered
categories (a Set, kept as a duplicate-free list), remaining candidates. -/
def greedyGo (requiredCategories : List String) :
    Nat → List Item → List String → List Item → List Item
  | 0, selectedItems, _, _ => selectedItems
  | fuel + 1, selectedItems, coveredCategories, remainingItems =>
    if coveredCategories.length < requiredCategories.length ∧ remainingItems ≠ [] then
      match findViableSplit requiredCategories coveredCategories remainingItems with
      | none => selectedItems
      | some (before, selectedItem, after) =>
        let selectedItems2 := selectedItems ++ [selectedItem]
        let coveredCategories2 := addCats coveredCategories (getItemCategories selectedItem)
        if 4 ≤ selectedItems2.length then selectedItems2
        else greedyGo requiredCategories fuel selectedItems2 coveredCategories2 (before ++ after)
    else selectedItems

/-- `findGreedySolution` of mealGenerator.js. The final all-covered check of
the source only logs a warning; the collected items are returned regardless
of whether they cover everything. -/
def findGreedySolution (requiredCategories : List String)
    (availableItems : List Item) : List Item :=
  greedyGo requiredCategories availableItems.length [] [] availableItems

/-- `findOptimalItemCombination` of mealGenerator.js: single-item exact match
first, greedy covering otherwise. -/
def findOptimalItemCombination (requiredCategories : List String)
    (availableItems : List Item) : List Item :=
  match findSingleItemSolution requiredCategories availableItems with
  | some singleItemSolution => [singleItemSolution]
  | none => findGreedySolution requiredCategories availableItems

/-- `generateSingleMeal` of mealGenerator.js (the catalog, grocery list and
session-used items are this-state passed explicitly). -/
def generateSingleMeal (items : List Item) (groceryList : List String)
    (scheduledMeal : ScheduledMeal) (usedItems : List Item) : Option Meal :=
  let requiredCategories := getRequiredCategories scheduledMeal
  let availableItems := getAvailableItems items groceryList usedItems
  if requiredCategories = [] then none
  else
    let selectedItems := findOptimalItemCombination requiredCategories availableItems
    if selectedItems = [] then none
    else some { name := scheduledMeal.name, time := scheduledMeal.time,
                items := selectedItems, requiredCategories := requiredCategories }

/-! ### Replacement engine (`generateReplacement`) and its UI caller -/

/-- The union-of-other-items' categories Set of `generateReplacement`,
accumulated in meal order. -/
def coveredByOthersOf (otherItems : List Item) : List String :=
  otherItems.foldl (fun acc item => addCats acc (getItemCategories item)) []

/-- `generateReplacement` of mealGenerator.js: compute the categories the
replaced item provided that no other item of the meal provides; empty means
"no replacement needed" and an empty list is returned at once; otherwise the
selector is re-run for just those categories, with the replaced item and its
meal-mates excluded. -/
def generateReplacement (items : List Item) (groceryList : List String)
    (existingMeal : Meal) (itemIndexToReplace : Nat) : List Item :=
  let itemToReplace := existingMeal.items.getD itemIndexToReplace default
  let otherItems := (existingMeal.items.enum.filter
    (fun p => p.1 ≠ itemIndexToReplace)).map Prod.snd
  let replacedCategories := getItemCategories itemToReplace
  let coveredByOthers := coveredByOthersOf otherItems
  let neededCategories := replacedCategories.filter (fun cat => ¬ coveredByOthers.contains cat)
  if neededCategories = [] then []
  else
    let availableItems := getAvailableItems items groceryList (itemToReplace :: otherItems)
    findOptimalItemCombination neededCategories availableItems

/-- `generateReplacementItem` of the UI layer (src/unnamed/part_002): wraps
`generateReplacement`; `none` models the `null` of the source. A non-empty
result is returned as-is and an empty result is returned as the empty array;
the source's trailing `return null` ("No suitable replacement found") is
unreachable, because the two length tests before it are exhaustive. -/
def generateReplacementItem (items : List Item) (groceryList : List String)
    (meal : Meal) (itemIndex : Nat) : Option (List Item) :=
  let replacementItems := generateReplacement items groceryList meal itemIndex
  if 0 < replacementItems.length then some replacementItems
  else if replacementItems.length = 0 then some []
  else none

/-- The three user-visible outcomes of the UI layer's `replaceItem`. -/
inductive ReplaceOutcome where
  | replaced : List Item → ReplaceOutcome
  | removedOnly : ReplaceOutcome
  | noReplacementFound : ReplaceOutcome
deriving DecidableEq, Repr

/-- The outcome classification of `replaceItem` (src/unnamed/part_002): a
non-empty replacement list splices in; an empty list removes the item and
shows the "all categories already covered" message; `null` shows the
"No suitable replacement found" error. -/
def replaceItemOutcome (items : List Item) (groceryList : List String)
    (meal : Meal) (itemIndex : Nat) : ReplaceOutcome :=
  match generateReplacementItem items groceryList meal itemIndex with
  | some replacementItems =>
    if 0 < replacementItems.length then .replaced replacementItems
    else .removedOnly
  | none => .noReplacementFound

/-- The list edit `replaceItem` performs on the meal when a replacement list
comes back (src/unnamed/part_002): `splice(itemIndex, 1)` removes the old
item, `splice(itemIndex, 0, ...replacementItems)` inserts the replacements
at the vacated position, and a result longer than 4 is cut to its first 4
elements by `slice(0, 4)`. An empty replacement list only removes. -/
def spliceReplace (mealItems : List Item) (itemIndex : Nat)
    (replacementItems : List Item) : List Item :=
  if 0 < replacementItems.length then
    let afterRemove := mealItems.take itemIndex ++ mealItems.drop (itemIndex + 1)
    let afterInsert := afterRemove.take itemIndex ++ replacementItems ++ afterRemove.drop itemIndex
    if 4 < afterInsert.length then afterInsert.take 4 else afterInsert
  else mealItems.take itemIndex ++ mealItems.drop (itemIndex + 1)

/-! ### Daily plan generation (`generateMealsForToday`) -/

/-- `sheetsAPI.updateLastUsed` (googleSheetsApi.js): overwrite the
"Last Used" cell of the first catalog row whose "Item" column equals the
given name. -/
def updateLastUsedFirst (items : List Item) (itemName : String) (date : String) : List Item :=
  match items with
  | [] => []
  | it :: rest =>
    if it.item = itemName then { it with lastUsed := date } :: rest
    else it :: updateLastUsedFirst rest itemName date

/-- The per-meal update loop of `generateMealsForToday`: `updateLastUsed`
for each selected item, followed by a reload of the catalog (so later slots
see the new timestamps). -/
def updateLastUsedAll (items : List Item) (names : List String) (date : String) : List Item :=
  names.foldl (fun acc n => updateLastUsedFirst acc n date) items

/-- The per-slot state of `generateMealsForToday`: the (reloaded) catalog,
the items used so far today, and the meals generated so far. -/
structure DayState where
  items : List Item
  usedItems : List Item
  generatedMeals : List Meal
deriving Repr

/-- One iteration of the slot loop of `generateMealsForToday`: a null meal
leaves the state unchanged; otherwise the meal is appended, its items join
the used-items list, and their "Last Used" cells are stamped with the
current timestamp before the next slot runs. -/
def generateMealsStep (groceryList : List String) (timestamp : String)
    (st : DayState) (scheduledMeal : ScheduledMeal) : DayState :=
  match generateSingleMeal st.items groceryList scheduledMeal st.usedItems with
  | none => st
  | some meal =>
    { items := updateLastUsedAll st.items (meal.items.map (fun it => it.item)) timestamp,
      usedItems := st.usedItems ++ meal.items,
      generatedMeals := st.generatedMeals ++ [meal] }

/-- `generateMealsForToday` of mealGenerator.js, with the sheet I/O
collapsed: the catalog is threaded through the slot loop and the (fresh)
ISO timestamps the source takes per meal are abstracted to one `timestamp`
argument — within one run the stamped items are excluded from every later
slot anyway, so their exact timestamps cannot influence the run. -/
def generateMealsForToday (schedule : List ScheduledMeal) (items : List Item)
    (groceryList : List String) (timestamp : String) : List Meal :=
  (schedule.foldl (generateMealsStep groceryList timestamp)
    { items := items, usedItems := [], generatedMeals := [] }).generatedMeals

/-! ### Spec-side helpers for stating the claims -/

/-- The union of the category sets of a list of items (the spec's
"union of the selected items' category sets"). -/
def itemsCategoryUnion (items : List Item) : List String :=
  items.foldl (fun acc it => addCats acc (getItemCategories it)) []

/-- Boolean set-equality of two category lists (ignoring order and
multiplicity). -/
def setEqB (a b : List String) : Bool :=
  a.all (fun c => b.contains c) && b.all (fun c => a.contains c)

/-- The splice of `replaceItem` before the 4-cap truncation: remove the item
at `itemIndex`, insert the replacement items at that position. -/
def splicedList (mealItems : List Item) (itemIndex : Nat)
    (replacementItems : List Item) : List Item :=
  let afterRemove := mealItems.take itemIndex ++ mealItems.drop (itemIndex + 1)
  afterRemove.take itemIndex ++ replacementItems ++ afterRemove.drop itemIndex

/-! ### Lemmas about the category Set operations -/

lemma mem_addOne {cov : List String} {x c : String} :
    c ∈ (if cov.contains x then cov else cov ++ [x]) ↔ c ∈ cov ∨ c = x := by
  by_cases hx : x ∈ cov
  · rw [if_pos (List.elem_iff.mpr hx)]
    constructor
    · exact Or.inl
    · rintro (h | rfl)
      · exact h
      · exact hx
  · rw [if_neg (fun hc => hx (List.elem_iff.mp hc))]
    simp [List.mem_append]

lemma mem_addCats {cov cats : List String} {c : String} :
    c ∈ addCats cov cats ↔ c ∈ cov ∨ c ∈ cats := by
  induction cats generalizing cov with
  | nil => simp [addCats]
  | cons x xs ih =>
    show c ∈ addCats (if cov.contains x then cov else cov ++ [x]) xs ↔ _
    rw [ih, mem_addOne, List.mem_cons]
    tauto

lemma viableItem_spec {req cov : List String} {it : Item}
    (h : viableItem req cov it = true) :
    (∀ c ∈ getItemCategories it, c ∉ cov) ∧
    (∀ c ∈ getItemCategories it, c ∈ req) := by
  simp only [viableItem, Bool.and_eq_true, Bool.not_eq_true', List.any_eq_false,
    decide_eq_true_eq] at h
  obtain ⟨⟨hconf, hextra⟩, _⟩ := h
  constructor
  · intro c hc hccov
    exact absurd (List.elem_iff.mpr hccov) (hconf c hc)
  · intro c hc
    exact List.elem_iff.mp (Decidable.not_not.mp (hextra c hc))

lemma findViableSplit_eq {req cov : List String} :
    ∀ {rem before after : List Item} {it : Item},
    findViableSplit req cov rem = some (before, it, after) →
    rem = before ++ it :: after ∧ viableItem req cov it = true := by
  intro rem
  induction rem with
  | nil => intro b a it h; simp [findViableSplit] at h
  | cons x xs ih =>
    intro b a it h
    by_cases hv : viableItem req cov x = true
    · simp [findViableSplit, hv] at h
      obtain ⟨rfl, rfl, rfl⟩ := h
      exact ⟨rfl, hv⟩
    · simp only [findViableSplit, hv, if_false] at h
      cases hsplit : findViableSplit req cov xs with
      | none => rw [hsplit] at h; simp at h
      | some triple =>
        obtain ⟨b', it', a'⟩ := triple
        rw [hsplit] at h
        simp at h
        obtain ⟨rfl, rfl, rfl⟩ := h
        obtain ⟨hxs, hvi⟩ := ih hsplit
        exact ⟨by rw [hxs]; rfl, hvi⟩

/-- Unfolding equation for one iteration of the greedy loop. -/
lemma greedyGo_succ (req : List String) (n : Nat) (sel : List Item)
    (cov : List String) (rem : List Item) :
    greedyGo req (n + 1) sel cov rem =
      if cov.length < req.length ∧ rem ≠ [] then
        match findViableSplit req cov rem with
        | none => sel
        | some (before, selectedItem, after) =>
          if 4 ≤ (sel ++ [selectedItem]).length then sel ++ [selectedItem]
          else greedyGo req n (sel ++ [selectedItem])
            (addCats cov (getItemCategories selectedItem)) (before ++ after)
      else sel := rfl

/-- Master invariant of the greedy loop: the items it appends to the
accumulator form a sub-multiset of the remaining list; each has all its
categories inside the requirements and outside the already-covered set;
and their category sets are pairwise disjoint. -/
lemma greedyGo_spec (req : List String) :
    ∀ (fuel : Nat) (sel : List Item) (cov : List String) (rem : List Item),
    ∃ s, greedyGo req fuel sel cov rem = sel ++ s ∧
      List.Subperm s rem ∧
      (∀ it ∈ s, ∀ c ∈ getItemCategories it, c ∈ req ∧ c ∉ cov) ∧
      List.Pairwise (fun a b => ∀ c ∈ getItemCategories a, c ∉ getItemCategories b) s := by
  intro fuel
  induction fuel with
  | zero =>
    intro sel cov rem
    exact ⟨[], by simp [greedyGo], List.nil_subperm, by simp, by simp⟩
  | succ n ih =>
    intro sel cov rem
    by_cases hcond : cov.length < req.length ∧ rem ≠ []
    · cases hsplit : findViableSplit req cov rem with
      | none =>
        exact ⟨[], by rw [greedyGo_succ, if_pos hcond, hsplit]; simp, List.nil_subperm,
          by simp, by simp⟩
      | some triple =>
        obtain ⟨before, selIt, after⟩ := triple
        obtain ⟨hrem, hviable⟩ := findViableSplit_eq hsplit
        obtain ⟨hdisj, hsub⟩ := viableItem_spec hviable
        by_cases hlen : 4 ≤ (sel ++ [selIt]).length
        · refine ⟨[selIt], ?_, ?_, ?_, by simp⟩
          · rw [greedyGo_succ, if_pos hcond, hsplit]
            dsimp only
            rw [if_pos hlen]
          · rw [hrem]
            exact List.singleton_subperm_iff.mpr (by simp)
          · intro it hit c hc
            rcases List.mem_singleton.mp hit with rfl
            exact ⟨hsub c hc, hdisj c hc⟩
        · obtain ⟨s, heq, hsp, hprops, hpw⟩ :=
            ih (sel ++ [selIt]) (addCats cov (getItemCategories selIt)) (before ++ after)
          refine ⟨selIt :: s, ?_, ?_, ?_, ?_⟩
          · have hstep : greedyGo req (n + 1) sel cov rem =
                greedyGo req n (sel ++ [selIt]) (addCats cov (getItemCategories selIt))
                  (before ++ after) := by
              rw [greedyGo_succ, if_pos hcond, hsplit]
              dsimp only
              rw [if_neg hlen]
            rw [hstep, heq]
            simp
          · rw [hrem]
            exact (((List.subperm_cons selIt).mpr hsp).trans
              (List.perm_middle.symm.subperm))
          · intro it hit c hc
            rcases List.mem_cons.mp hit with rfl | hmem
            · exact ⟨hsub c hc, hdisj c hc⟩
            · obtain ⟨hreq, hnotcov⟩ := hprops it hmem c hc
              exact ⟨hreq, fun hccov => hnotcov (mem_addCats.mpr (Or.inl hccov))⟩
          · refine List.Pairwise.cons ?_ hpw
            intro b hb c hc hcb
            exact (hprops b hb c hcb).2 (mem_addCats.mpr (Or.inr hc))
    · exact ⟨[], by rw [greedyGo_succ, if_neg hcond]; simp, List.nil_subperm, by simp, by simp⟩

/-- The 4-item cap of the greedy loop: starting from at most 3 accumulated
items, the loop never returns more than 4 (the source breaks right after the
append that reaches 4). -/
lemma greedyGo_length (req : List String) :
    ∀ (fuel : Nat) (sel : List Item) (cov : List String) (rem : List Item),
    sel.length ≤ 3 → (greedyGo req fuel sel cov rem).length ≤ 4 := by
  intro fuel
  induction fuel with
  | zero =>
    intro sel cov rem h
    simpa [greedyGo] using by omega
  | succ n ih =>
    intro sel cov rem h
    by_cases hcond : cov.length < req.length ∧ rem ≠ []
    · cases hsplit : findViableSplit req cov rem with
      | none =>
        have : greedyGo req (n + 1) sel cov rem = sel := by
          rw [greedyGo_succ, if_pos hcond, hsplit]
        rw [this]; omega
      | some triple =>
        obtain ⟨before, selIt, after⟩ := triple
        by_cases hlen : 4 ≤ (sel ++ [selIt]).length
        · have : greedyGo req (n + 1) sel cov rem = sel ++ [selIt] := by
            rw [greedyGo_succ, if_pos hcond, hsplit]
            dsimp only
            rw [if_pos hlen]
          rw [this]
          simp
          omega
        · have hstep : greedyGo req (n + 1) sel cov rem =
              greedyGo req n (sel ++ [selIt]) (addCats cov (getItemCategories selIt))
                (before ++ after) := by
            rw [greedyGo_succ, if_pos hcond, hsplit]
            dsimp only
            rw [if_neg hlen]
          rw [hstep]
          apply ih
          simp at hlen
          simp
          omega
    · have : greedyGo req (n + 1) sel cov rem = sel := by
        rw [greedyGo_succ, if_neg hcond]
      rw [this]; omega

lemma insertItem_perm (x : Item) (l : List Item) :
    List.Perm (insertItem x l) (x :: l) := by
  induction l with
  | nil => rfl
  | cons y ys ih =>
    unfold insertItem
    by_cases h : itemLe y x = true
    · rw [if_pos h]
      exact (ih.cons y).trans (List.Perm.swap x y ys)
    · rw [if_neg h]

lemma foldl_insertItem_perm :
    ∀ (l acc : List Item),
    List.Perm (l.foldl (fun a x => insertItem x a) acc) (acc ++ l) := by
  intro l
  induction l with
  | nil => intro acc; simp
  | cons x xs ih =>
    intro acc
    have h1 : List.Perm (xs.foldl (fun a x => insertItem x a) (insertItem x acc))
        (insertItem x acc ++ xs) := ih _
    have h2 : List.Perm (insertItem x acc ++ xs) ((x :: acc) ++ xs) :=
      (insertItem_perm x acc).append_right xs
    have h3 : List.Perm ((x :: acc) ++ xs) (acc ++ x :: xs) := List.perm_middle.symm
    exact (h1.trans h2).trans h3

/-- The model sort permutes its input. -/
lemma jsSortItems_perm (items : List Item) :
    List.Perm (jsSortItems items) items := by
  simpa using foldl_insertItem_perm items []

lemma categoriesMatch_spec {c1 c2 : List String} (h : categoriesMatch c1 c2 = true) :
    (∀ c ∈ c1, c ∈ c2) ∧ (∀ c ∈ c2, c ∈ c1) := by
  simp only [categoriesMatch, Bool.and_eq_true, List.all_eq_true] at h
  obtain ⟨⟨_, h12⟩, h21⟩ := h
  exact ⟨fun c hc => List.elem_iff.mp (h12 c hc), fun c hc => List.elem_iff.mp (h21 c hc)⟩

/-- The selection result is a sub-multiset of the available items. -/
lemma findOptimalItemCombination_subperm (req : List String) (avail : List Item) :
    List.Subperm (findOptimalItemCombination req avail) avail := by
  unfold findOptimalItemCombination
  cases hfind : findSingleItemSolution req avail with
  | some it =>
    exact List.singleton_subperm_iff.mpr (List.mem_of_find?_eq_some hfind)
  | none =>
    obtain ⟨s, heq, hsp, _, _⟩ := greedyGo_spec req avail.length [] [] avail
    unfold findGreedySolution
    rw [heq]
    simpa using hsp

lemma mem_findOptimalItemCombination {req : List String} {avail : List Item} {x : Item}
    (hx : x ∈ findOptimalItemCombination req avail) : x ∈ avail :=
  (findOptimalItemCombination_subperm req avail).subset hx

/-- Membership in the availability list: comes from the catalog, and is on
neither the grocery list nor the exclusion list. -/
lemma mem_getAvailableItems {items : List Item} {groceryList : List String}
    {excludeItems : List Item} {x : Item}
    (hx : x ∈ getAvailableItems items groceryList excludeItems) :
    x ∈ items ∧ x.item ∉ groceryList ∧
      x.item ∉ excludeItems.map (fun item => item.item) := by
  unfold getAvailableItems at hx
  have hx' := (jsSortItems_perm _).mem_iff.mp hx
  have := List.mem_filter.mp hx'
  obtain ⟨hmem, hcond⟩ := this
  simp only [decide_eq_true_eq, Bool.and_eq_true, decide_not, Bool.not_eq_true',
    not_and, decide_eq_false_iff_not] at hcond
  refine ⟨hmem, ?_, ?_⟩
  · intro hg
    exact absurd (List.elem_iff.mpr hg) (by simpa using hcond.1)
  · intro he
    exact absurd (List.elem_iff.mpr he) (by simpa using hcond.2)

/-- Inversion of `generateSingleMeal`: a produced meal records exactly the
slot's required categories and the selector's (non-empty) item list. -/
lemma generateSingleMeal_eq_some {items : List Item} {groceryList : List String}
    {scheduledMeal : ScheduledMeal} {usedItems : List Item} {m : Meal}
    (h : generateSingleMeal items groceryList scheduledMeal usedItems = some m) :
    m.requiredCategories = getRequiredCategories scheduledMeal ∧
    m.items = findOptimalItemCombination (getRequiredCategories scheduledMeal)
      (getAvailableItems items groceryList usedItems) ∧
    m.items ≠ [] ∧ m.name = scheduledMeal.name ∧ m.time = scheduledMeal.time := by
  unfold generateSingleMeal at h
  by_cases hreq : getRequiredCategories scheduledMeal = []
  · rw [if_pos hreq] at h
    exact absurd h (by simp)
  · rw [if_neg hreq] at h
    by_cases hsel : findOptimalItemCombination (getRequiredCategories scheduledMeal)
        (getAvailableItems items groceryList usedItems) = []
    · simp only [hsel, if_pos] at h
      exact absurd h (by simp)
    · simp only [if_neg hsel, Option.some.injEq] at h
      subst h
      exact ⟨rfl, rfl, hsel, rfl, rfl⟩

lemma find?_split {p : Item → Bool} :
    ∀ {l : List Item} {it : Item}, l.find? p = some it →
    ∃ pre post, l = pre ++ it :: post ∧ (∀ x ∈ pre, p x = false) ∧ p it = true := by
  intro l
  induction l with
  | nil => intro it h; simp at h
  | cons x xs ih =>
    intro it h
    by_cases hx : p x = true
    · rw [List.find?_cons_of_pos _ hx] at h
      obtain rfl : x = it := Option.some.inj h
      exact ⟨[], xs, rfl, by simp, hx⟩
    · have hx' : p x = false := Bool.eq_false_iff.mpr hx
      rw [List.find?_cons_of_neg _ (by simp [hx'])] at h
      obtain ⟨pre, post, rfl, hpre, hit⟩ := ih h
      exact ⟨x :: pre, post, rfl, by
        intro z hz
        rcases List.mem_cons.mp hz with rfl | hz'
        · exact hx'
        · exact hpre z hz', hit⟩

/-- No-extra and no-duplicate coverage for the full two-phase selection. -/
lemma findOptimalItemCombination_cover_inv (req : List String) (avail : List Item) :
    (∀ it ∈ findOptimalItemCombination req avail, ∀ c ∈ getItemCategories it, c ∈ req) ∧
    List.Pairwise (fun a b => ∀ c ∈ getItemCategories a, c ∉ getItemCategories b)
      (findOptimalItemCombination req avail) := by
  unfold findOptimalItemCombination
  cases hfind : findSingleItemSolution req avail with
  | some it =>
    have hfind' : avail.find? (fun item => categoriesMatch (getItemCategories item) req) =
        some it := hfind
    have hm := List.find?_some hfind'
    refine ⟨?_, by simp⟩
    intro x hx c hc
    rcases List.mem_singleton.mp hx with rfl
    exact (categoriesMatch_spec hm).1 c hc
  | none =>
    obtain ⟨s, heq, _, hprops, hpw⟩ := greedyGo_spec req avail.length [] [] avail
    unfold findGreedySolution
    rw [heq]
    simp only [List.nil_append]
    exact ⟨fun it hit c hc => (hprops it hit c hc).1, hpw⟩

/-! ### Concrete records used by the counterexamples and witnesses -/

def cexItemA : Item :=
  { item := "A", carb := "y", protein := "", fruit := "", veggie := "", lastUsed := "" }

def cexItemB : Item :=
  { item := "B", carb := "", protein := "y", fruit := "", veggie := "", lastUsed := "" }

def cexItemC : Item :=
  { item := "C", carb := "", protein := "", fruit := "y", veggie := "", lastUsed := "" }

def cexItemD : Item :=
  { item := "D", carb := "", protein := "", fruit := "", veggie := "y", lastUsed := "" }

def cexItemX : Item :=
  { item := "X", carb := "y", protein := "", fruit := "", veggie := "y", lastUsed := "" }

def cexItemY : Item :=
  { item := "Y", carb := "y", protein := "", fruit := "", veggie := "", lastUsed := "" }

def cexItemZ : Item :=
  { item := "Z", carb := "", protein := "y", fruit := "", veggie := "", lastUsed := "" }

def cexSlotCP : ScheduledMeal :=
  { name := "Lunch", time := "12:00", carb := "y", protein := "y", fruit := "", veggie := "" }

def cexSlotC : ScheduledMeal :=
  { name := "Snack", time := "9:00", carb := "y", protein := "", fruit := "", veggie := "" }

def cexMealY : Meal :=
  { name := "Snack", time := "9:00", items := [cexItemY], requiredCategories := ["Carb"] }

/-! ### Claim theorems -/

/-- C1 (counterexample). Cover-exactness fails as stated: with the slot
requiring Carb and Protein and the catalog holding only a Carb item, the
greedy phase covers Carb, cannot cover Protein, and `generateSingleMeal`
nonetheless returns a meal — whose category union is not the required set
(Protein is missing). -/
theorem claim1_cover_exactness_counterexample :
    generateSingleMeal [cexItemA] [] cexSlotCP [] =
      some { name := "Lunch", time := "12:00", items := [cexItemA],
             requiredCategories := ["Carb", "Protein"] } ∧
    setEqB (itemsCategoryUnion [cexItemA]) ["Carb", "Protein"] = false := by
  decide

/-- C1 (amended). Every meal `generateSingleMeal` produces satisfies the
no-extra half (each selected item's categories lie inside the required set)
and the no-duplicate half (selected items' category sets are pairwise
disjoint) of cover-exactness; a required category can nonetheless be left
uncovered. -/
theorem claim1_cover_exactness_amended
    (items : List Item) (groceryList : List String) (scheduledMeal : ScheduledMeal)
    (usedItems : List Item) (m : Meal)
    (h : generateSingleMeal items groceryList scheduledMeal usedItems = some m) :
    (∀ it ∈ m.items, ∀ c ∈ getItemCategories it, c ∈ m.requiredCategories) ∧
    List.Pairwise (fun a b => ∀ c ∈ getItemCategories a, c ∉ getItemCategories b) m.items := by
  obtain ⟨hreq, hitems, _, _, _⟩ := generateSingleMeal_eq_some h
  rw [hreq, hitems]
  exact findOptimalItemCombination_cover_inv _ _

/-- Witness for C1 (amended) at a concrete generated meal. -/
theorem claim1_cover_exactness_amended_witness :
    generateSingleMeal [cexItemY] [] cexSlotC [] = some cexMealY ∧
    ((∀ it ∈ cexMealY.items, ∀ c ∈ getItemCategories it, c ∈ cexMealY.requiredCategories) ∧
      List.Pairwise (fun a b => ∀ c ∈ getItemCategories a, c ∉ getItemCategories b)
        cexMealY.items) :=
  ⟨by decide, claim1_cover_exactness_amended [cexItemY] [] cexSlotC [] cexMealY (by decide)⟩

/-- C4. If the required set is non-empty and some available item matches it
exactly, the selection returns exactly the first such item (availability
order, i.e. oldest first) as a one-item meal; and the greedy phase runs only
when no available item matches exactly. -/
theorem claim4_exact_single_item_phase :
    (∀ (req : List String) (avail : List Item), req ≠ [] →
      (∃ it ∈ avail, categoriesMatch (getItemCategories it) req = true) →
      ∃ pre it post, avail = pre ++ it :: post ∧
        (∀ x ∈ pre, categoriesMatch (getItemCategories x) req = false) ∧
        categoriesMatch (getItemCategories it) req = true ∧
        findOptimalItemCombination req avail = [it]) ∧
    (∀ (req : List String) (avail : List Item),
      (∀ x ∈ avail, categoriesMatch (getItemCategories x) req = false) →
      findOptimalItemCombination req avail = findGreedySolution req avail) := by
  constructor
  · intro req avail _ hex
    cases hfind : findSingleItemSolution req avail with
    | none =>
      obtain ⟨it, hit, hm⟩ := hex
      have := List.find?_eq_none.mp hfind it hit
      rw [hm] at this
      exact absurd this (by simp)
    | some it =>
      obtain ⟨pre, post, hsplit, hpre, hit⟩ := find?_split hfind
      exact ⟨pre, it, post, hsplit, hpre, hit, by
        unfold findOptimalItemCombination
        rw [hfind]⟩
  · intro req avail hall
    have hnone : findSingleItemSolution req avail = none :=
      List.find?_eq_none.mpr (fun x hx => by simp [hall x hx])
    unfold findOptimalItemCombination
    rw [hnone]

/-- Witness for C4 at a concrete catalog: one exactly-matching item. -/
theorem claim4_exact_single_item_phase_witness :
    (["Carb"] ≠ ([] : List String)) ∧
    (∃ it ∈ [cexItemY], categoriesMatch (getItemCategories it) ["Carb"] = true) ∧
    (∃ pre it post, [cexItemY] = pre ++ it :: post ∧
      (∀ x ∈ pre, categoriesMatch (getItemCategories x) ["Carb"] = false) ∧
      categoriesMatch (getItemCategories it) ["Carb"] = true ∧
      findOptimalItemCombination ["Carb"] [cexItemY] = [it]) :=
  ⟨by decide, by decide,
    claim4_exact_single_item_phase.1 ["Carb"] [cexItemY] (by decide) (by decide)⟩

/-- C5. In the greedy phase every selected item has all its categories in
the required set (over-broad items are skipped entirely) and no category in
common with any other selected item (conflicting items are skipped); on the
spec's concrete instance — required Carb+Protein over
X(Carb,Veggie), Y(Carb), Z(Protein) — X is skipped and the result is
[Y, Z]. -/
theorem claim5_greedy_skip_rules :
    (∀ (req : List String) (avail : List Item),
      (∀ it ∈ findGreedySolution req avail, ∀ c ∈ getItemCategories it, c ∈ req) ∧
      List.Pairwise (fun a b => ∀ c ∈ getItemCategories a, c ∉ getItemCategories b)
        (findGreedySolution req avail)) ∧
    (findGreedySolution ["Carb", "Protein"] [cexItemX, cexItemY, cexItemZ]).map
      (fun it => it.item) = ["Y", "Z"] := by
  constructor
  · intro req avail
    obtain ⟨s, heq, _, hprops, hpw⟩ := greedyGo_spec req avail.length [] [] avail
    unfold findGreedySolution
    rw [heq]
    simp only [List.nil_append]
    exact ⟨fun it hit c hc => (hprops it hit c hc).1, hpw⟩
  · decide

/-- C6. Meal selection never returns more than 4 items; on a concrete
instance where a fifth category remains uncoverable, the greedy phase stops
at 4 items and the result's coverage is incomplete (the fifth category is
absent from the union) rather than over the cap. -/
theorem claim6_four_item_cap :
    (∀ (req : List String) (avail : List Item),
      (findOptimalItemCombination req avail).length ≤ 4) ∧
    (findGreedySolution ["Carb", "Protein", "Fruit", "Veggie", "Dairy"]
      [cexItemA, cexItemB, cexItemC, cexItemD]).length = 4 ∧
    "Dairy" ∉ itemsCategoryUnion (findGreedySolution
      ["Carb", "Protein", "Fruit", "Veggie", "Dairy"]
      [cexItemA, cexItemB, cexItemC, cexItemD]) := by
  refine ⟨?_, by decide, by decide⟩
  intro req avail
  unfold findOptimalItemCombination
  cases hfind : findSingleItemSolution req avail with
  | some it => simp
  | none => exact greedyGo_length req avail.length [] [] avail (by simp)

/-- C10 (implicit). The selection is a sub-multiset of the availability
list (the greedy phase removes each selected item from the remaining
candidates, the single-item phase returns one item), so a duplicate-free
availability list yields a duplicate-free meal: no item is selected twice. -/
theorem claim10_pairwise_distinct_items :
    (∀ (req : List String) (avail : List Item),
      List.Subperm (findOptimalItemCombination req avail) avail) ∧
    (∀ (req : List String) (avail : List Item), avail.Nodup →
      (findOptimalItemCombination req avail).Nodup) := by
  refine ⟨findOptimalItemCombination_subperm, ?_⟩
  intro req avail hnd
  obtain ⟨l', hperm, hsub⟩ := findOptimalItemCombination_subperm req avail
  exact (hsub.nodup hnd).perm hperm

/-- Witness for C10 on a concrete duplicate-free catalog. -/
theorem claim10_pairwise_distinct_items_witness :
    ([cexItemY, cexItemZ] : List Item).Nodup ∧
    (findOptimalItemCombination ["Carb", "Protein"] [cexItemY, cexItemZ]).Nodup :=
  ⟨by decide, claim10_pairwise_distinct_items.2 ["Carb", "Protein"] [cexItemY, cexItemZ]
    (by decide)⟩

def cexSlotC2 : ScheduledMeal :=
  { name := "Snack2", time := "15:00", carb := "y", protein := "", fruit := "", veggie := "" }

def cexMealA : Meal :=
  { name := "Lunch", time := "12:00", items := [cexItemA], requiredCategories := ["Carb"] }

def cexMealYA : Meal :=
  { name := "Lunch", time := "12:00", items := [cexItemY, cexItemA],
    requiredCategories := ["Carb"] }

/-- C2 (code bug). The "replacement sought but none exists" outcome is not
surfaced differently from the "categories already covered, just remove"
outcome: both come back from `generateReplacement` as the empty list, and the
caller classifies both as plain removal (the source's
"No suitable replacement found" branch is unreachable). First scenario: the
meal's only item provides Carb, no other item in the meal covers it (the
needed-categories list is ["Carb"], so a replacement is genuinely sought),
and the catalog offers no substitute — yet the outcome is `removedOnly`,
exactly as in the second, genuinely redundant scenario. -/
theorem claim2_redundant_vs_failure_conflated :
    (getItemCategories cexItemA).filter
      (fun cat => ¬ (coveredByOthersOf []).contains cat) = ["Carb"] ∧
    generateReplacement [cexItemA] [] cexMealA 0 = [] ∧
    replaceItemOutcome [cexItemA] [] cexMealA 0 = ReplaceOutcome.removedOnly ∧
    (getItemCategories cexItemY).filter
      (fun cat => ¬ (coveredByOthersOf [cexItemA]).contains cat) = [] ∧
    replaceItemOutcome [cexItemY, cexItemA] [] cexMealYA 0 = ReplaceOutcome.removedOnly := by
  decide

/-- C3 (code bug). `parseDate` maps the literal "never" — and any other
string that none of the three branches can parse — to an Invalid Date (NaN
time value, modelled `none`), not to epoch zero: `new Date("never")` does
not throw, so the catch branch that would return epoch zero is never
reached. Only a falsy (empty) value yields epoch zero. -/
theorem claim3_parse_date_never_not_epoch :
    parseDate "never" = none ∧ parseDate "never" ≠ some 0 ∧
    parseDate "garbage" = none ∧ parseDate "" = some 0 := by
  decide

/-- C8 (counterexample). Splicing two replacement items in place of the last
item of a four-item meal yields five items; the cut to the first four drops
the second replacement item — a just-found replacement is silently
discarded, contradicting the claim that inserted items are never among the
discarded elements. -/
theorem claim8_truncation_counterexample :
    spliceReplace [cexItemA, cexItemB, cexItemC, cexItemD] 3 [cexItemY, cexItemZ] =
      [cexItemA, cexItemB, cexItemC, cexItemY] ∧
    cexItemZ ∉ spliceReplace [cexItemA, cexItemB, cexItemC, cexItemD] 3 [cexItemY, cexItemZ] := by
  decide

/-- C8 (amended). The splice result is always cut to its first 4 elements
(excess dropped from the tail); the inserted replacement items are retained
whenever they land at positions below 4 — that is, whenever the vacated
index plus the number of replacements is at most 4 — but may themselves be
dropped when the insertion reaches past position 4. -/
theorem claim8_truncation_amended
    (mealItems : List Item) (itemIndex : Nat) (replacementItems : List Item)
    (hne : replacementItems ≠ []) :
    spliceReplace mealItems itemIndex replacementItems =
      (splicedList mealItems itemIndex replacementItems).take 4 ∧
    (itemIndex < mealItems.length → itemIndex + replacementItems.length ≤ 4 →
      ∀ r ∈ replacementItems,
        r ∈ spliceReplace mealItems itemIndex replacementItems) := by
  have hpos : 0 < replacementItems.length := List.length_pos.mpr hne
  have hunfold : spliceReplace mealItems itemIndex replacementItems =
      if 0 < replacementItems.length then
        (if 4 < (splicedList mealItems itemIndex replacementItems).length then
          (splicedList mealItems itemIndex replacementItems).take 4
        else splicedList mealItems itemIndex replacementItems)
      else mealItems.take itemIndex ++ mealItems.drop (itemIndex + 1) := rfl
  have heq : spliceReplace mealItems itemIndex replacementItems =
      (splicedList mealItems itemIndex replacementItems).take 4 := by
    rw [hunfold, if_pos hpos]
    by_cases h4 : 4 < (splicedList mealItems itemIndex replacementItems).length
    · rw [if_pos h4]
    · rw [if_neg h4]
      exact (List.take_of_length_le (Nat.le_of_not_lt h4)).symm
  refine ⟨heq, ?_⟩
  intro hidx hle r hr
  rw [heq]
  have hsplit : splicedList mealItems itemIndex replacementItems =
      ((mealItems.take itemIndex ++ mealItems.drop (itemIndex + 1)).take itemIndex ++
        replacementItems) ++
      (mealItems.take itemIndex ++ mealItems.drop (itemIndex + 1)).drop itemIndex := rfl
  have hAlen : ((mealItems.take itemIndex ++ mealItems.drop (itemIndex + 1)).take
      itemIndex).length = itemIndex := by
    simp only [List.length_take, List.length_append, List.length_drop]
    omega
  rw [hsplit, List.take_append_eq_append_take]
  have hfit : (((mealItems.take itemIndex ++ mealItems.drop (itemIndex + 1)).take itemIndex ++
      replacementItems)).take 4 =
      (mealItems.take itemIndex ++ mealItems.drop (itemIndex + 1)).take itemIndex ++
        replacementItems :=
    List.take_of_length_le (by rw [List.length_append, hAlen]; omega)
  rw [hfit]
  exact List.mem_append_left _ (List.mem_append_right _ hr)

/-- Witness for C8 (amended) at a concrete splice that keeps everything. -/
theorem claim8_truncation_amended_witness :
    ([cexItemY] : List Item) ≠ [] ∧
    (spliceReplace [cexItemA] 0 [cexItemY] = (splicedList [cexItemA] 0 [cexItemY]).take 4 ∧
      (0 < ([cexItemA] : List Item).length → 0 + ([cexItemY] : List Item).length ≤ 4 →
        ∀ r ∈ ([cexItemY] : List Item), r ∈ spliceReplace [cexItemA] 0 [cexItemY])) :=
  ⟨by decide, claim8_truncation_amended [cexItemA] 0 [cexItemY] (by decide)⟩

/-! ### Cross-slot exclusion (C7) -/

/-- Invariant of the slot loop: every item already placed into a meal is on
the used-items list, and meals so far use pairwise disjoint item names. -/
def DayInv (st : DayState) : Prop :=
  (∀ m ∈ st.generatedMeals, ∀ it ∈ m.items,
    it.item ∈ st.usedItems.map (fun i => i.item)) ∧
  List.Pairwise (fun m1 m2 => ∀ it1 ∈ m1.items, ∀ it2 ∈ m2.items,
    it1.item ≠ it2.item) st.generatedMeals

lemma generateMealsStep_inv (groceryList : List String) (timestamp : String)
    (st : DayState) (slot : ScheduledMeal) (h : DayInv st) :
    DayInv (generateMealsStep groceryList timestamp st slot) := by
  unfold generateMealsStep
  cases hgen : generateSingleMeal st.items groceryList slot st.usedItems with
  | none => exact h
  | some meal =>
    obtain ⟨hused, hpw⟩ := h
    obtain ⟨_, hitems, _, _, _⟩ := generateSingleMeal_eq_some hgen
    have hfresh : ∀ it ∈ meal.items, it.item ∉ st.usedItems.map (fun i => i.item) := by
      intro it hit
      rw [hitems] at hit
      exact (mem_getAvailableItems (mem_findOptimalItemCombination hit)).2.2
    constructor
    · intro m hm it hit
      simp only [List.map_append]
      rcases List.mem_append.mp hm with hm' | hm'
      · exact List.mem_append_left _ (hused m hm' it hit)
      · rcases List.mem_singleton.mp hm' with rfl
        exact List.mem_append_right _ (List.mem_map_of_mem _ hit)
    · rw [List.pairwise_append]
      refine ⟨hpw, by simp, ?_⟩
      intro m1 hm1 m2 hm2 it1 hit1 it2 hit2
      rcases List.mem_singleton.mp hm2 with rfl
      intro hne
      exact hfresh it2 hit2 (hne ▸ hused m1 hm1 it1 hit1)

lemma foldl_generateMealsStep_inv (groceryList : List String) (timestamp : String) :
    ∀ (schedule : List ScheduledMeal) (st : DayState), DayInv st →
    DayInv (schedule.foldl (generateMealsStep groceryList timestamp) st) := by
  intro schedule
  induction schedule with
  | nil => intro st h; exact h
  | cons slot rest ih =>
    intro st h
    exact ih _ (generateMealsStep_inv groceryList timestamp st slot h)

/-- C7. Within one run of the daily generator, the meals produced use
pairwise disjoint item names — an item placed into an earlier slot's meal is
excluded from every later slot's candidates; concretely, with two Carb slots
and a single Carb item, only the first slot yields a meal. -/
theorem claim7_cross_slot_exclusion :
    (∀ (schedule : List ScheduledMeal) (items : List Item)
       (groceryList : List String) (timestamp : String),
      List.Pairwise (fun m1 m2 => ∀ it1 ∈ m1.items, ∀ it2 ∈ m2.items,
        it1.item ≠ it2.item)
        (generateMealsForToday schedule items groceryList timestamp)) ∧
    (generateMealsForToday [cexSlotC, cexSlotC2] [cexItemA] [] "").map
      (fun m => m.name) = ["Snack"] := by
  constructor
  · intro schedule items groceryList timestamp
    exact (foldl_generateMealsStep_inv groceryList timestamp schedule
      { items := items, usedItems := [], generatedMeals := [] }
      ⟨by simp, by simp⟩).2
  · decide

/-! ### Heap-instrumented replacement (C9)

To settle the frame claim — `generateReplacement` never mutates the meal it
borrows, nor any sibling structure — JS array identity is made explicit: a
heap maps array ids to item lists, every array literal / `filter` / spread
allocates a fresh id, and the two in-place operations the call tree performs
(`sort` on the freshly filtered availability array, `push`/`splice` on the
greedy loop's own arrays) are `Heap.set` on those fresh ids. Items are
immutable values here (nothing in `generateReplacement` writes an item
field). The instrumented functions mirror their pure counterparts
line-for-line and are proved to return the same result. -/

/-- The array heap: index = array id; allocation appends. -/
structure Heap where
  arrays : List (List Item)
deriving Repr

def Heap.get (h : Heap) (id : Nat) : List Item := h.arrays.getD id []

def Heap.set (h : Heap) (id : Nat) (xs : List Item) : Heap := ⟨h.arrays.set id xs⟩

def Heap.alloc (h : Heap) (xs : List Item) : Heap × Nat :=
  (⟨h.arrays ++ [xs]⟩, h.arrays.length)

/-- `getAvailableItems`, heap-instrumented: `filter` allocates a fresh
array, `sort` mutates that fresh array in place; the returned id is the
fresh array's. -/
def getAvailableItemsH (h : Heap) (itemsId : Nat) (groceryList : List String)
    (excludeItems : List Item) : Heap × Nat :=
  let excludeNames := excludeItems.map (fun item => item.item)
  let filteredItems := (h.get itemsId).filter
    (fun item => ¬ groceryList.contains item.item ∧ ¬ excludeNames.contains item.item)
  let a := h.alloc filteredItems
  (a.1.set a.2 (jsSortItems filteredItems), a.2)

/-- The greedy loop, heap-instrumented: `push` writes the selection array,
`splice` writes the remaining array; both were freshly allocated by
`findGreedySolutionH`. -/
def greedyGoH (requiredCategories : List String) :
    Nat → Heap → Nat → List String → Nat → Heap
  | 0, h, _, _, _ => h
  | fuel + 1, h, selId, coveredCategories, remId =>
    let selectedItems := h.get selId
    let remainingItems := h.get remId
    if coveredCategories.length < requiredCategories.length ∧ remainingItems ≠ [] then
      match findViableSplit requiredCategories coveredCategories remainingItems with
      | none => h
      | some (before, selectedItem, after) =>
        let h1 := h.set selId (selectedItems ++ [selectedItem])
        let h2 := h1.set remId (before ++ after)
        if 4 ≤ (selectedItems ++ [selectedItem]).length then h2
        else greedyGoH requiredCategories fuel h2 selId
          (addCats coveredCategories (getItemCategories selectedItem)) remId
    else h

/-- `findGreedySolution`, heap-instrumented: allocates the empty selection
array and the spread copy of the availability array, runs the loop, returns
the selection array's final contents. -/
def findGreedySolutionH (h : Heap) (requiredCategories : List String)
    (availId : Nat) : Heap × List Item :=
  let availableItems := h.get availId
  let a1 := h.alloc []
  let a2 := a1.1.alloc availableItems
  let h3 := greedyGoH requiredCategories availableItems.length a2.1 a1.2 [] a2.2
  (h3, h3.get a1.2)

/-- `findOptimalItemCombination`, heap-instrumented (the single-item phase
only reads). -/
def findOptimalItemCombinationH (h : Heap) (requiredCategories : List String)
    (availId : Nat) : Heap × List Item :=
  match findSingleItemSolution requiredCategories (h.get availId) with
  | some singleItemSolution => (h, [singleItemSolution])
  | none => findGreedySolutionH h requiredCategories availId

/-- `generateReplacement`, heap-instrumented: the meal's items array is only
read; `filter` over it allocates the other-items array; the availability
computation and the greedy loop work on their own fresh arrays. -/
def generateReplacementH (h : Heap) (itemsId : Nat) (groceryList : List String)
    (mealItemsId : Nat) (itemIndexToReplace : Nat) : Heap × List Item :=
  let mealItems := h.get mealItemsId
  let itemToReplace := mealItems.getD itemIndexToReplace default
  let otherItems := (mealItems.enum.filter
    (fun p => p.1 ≠ itemIndexToReplace)).map Prod.snd
  let a := h.alloc otherItems
  let replacedCategories := getItemCategories itemToReplace
  let coveredByOthers := coveredByOthersOf otherItems
  let neededCategories := replacedCategories.filter (fun cat => ¬ coveredByOthers.contains cat)
  if neededCategories = [] then (a.1, [])
  else
    let av := getAvailableItemsH a.1 itemsId groceryList (itemToReplace :: otherItems)
    findOptimalItemCombinationH av.1 neededCategories av.2

lemma Heap.get_set_ne (h : Heap) (i j : Nat) (xs : List Item) (hne : i ≠ j) :
    (h.set j xs).get i = h.get i := by
  unfold Heap.get Heap.set
  simp [List.getD, List.getElem?_set_ne (Ne.symm hne)]

lemma Heap.set_length (h : Heap) (j : Nat) (xs : List Item) :
    (h.set j xs).arrays.length = h.arrays.length := by
  simp [Heap.set]

lemma Heap.get_alloc_old (h : Heap) (xs : List Item) (i : Nat)
    (hi : i < h.arrays.length) :
    (h.alloc xs).1.get i = h.get i := by
  unfold Heap.get Heap.alloc
  simp [List.getD, List.getElem?_append_left hi]

/-- The greedy loop writes only the selection and remaining arrays. -/
lemma greedyGoH_frame (req : List String) :
    ∀ (fuel : Nat) (h : Heap) (selId : Nat) (cov : List String) (remId : Nat) (i : Nat),
    i ≠ selId → i ≠ remId →
    (greedyGoH req fuel h selId cov remId).get i = h.get i := by
  intro fuel
  induction fuel with
  | zero => intro h selId cov remId i _ _; rfl
  | succ n ih =>
    intro h selId cov remId i hisel hirem
    show (if cov.length < req.length ∧ h.get remId ≠ [] then
        match findViableSplit req cov (h.get remId) with
        | none => h
        | some (before, selectedItem, after) =>
          if 4 ≤ (h.get selId ++ [selectedItem]).length then
            (h.set selId (h.get selId ++ [selectedItem])).set remId (before ++ after)
          else greedyGoH req n ((h.set selId (h.get selId ++ [selectedItem])).set remId
            (before ++ after)) selId (addCats cov (getItemCategories selectedItem)) remId
      else h).get i = h.get i
    by_cases hcond : cov.length < req.length ∧ h.get remId ≠ []
    · rw [if_pos hcond]
      cases hsplit : findViableSplit req cov (h.get remId) with
      | none => rfl
      | some triple =>
        obtain ⟨before, selIt, after⟩ := triple
        dsimp only
        by_cases hlen : 4 ≤ (h.get selId ++ [selIt]).length
        · rw [if_pos hlen, Heap.get_set_ne _ _ _ _ hirem, Heap.get_set_ne _ _ _ _ hisel]
        · rw [if_neg hlen, ih _ _ _ _ _ hisel hirem,
            Heap.get_set_ne _ _ _ _ hirem, Heap.get_set_ne _ _ _ _ hisel]
    · rw [if_neg hcond]

/-- The greedy loop preserves the heap size. -/
lemma greedyGoH_length (req : List String) :
    ∀ (fuel : Nat) (h : Heap) (selId : Nat) (cov : List String) (remId : Nat),
    (greedyGoH req fuel h selId cov remId).arrays.length = h.arrays.length := by
  intro fuel
  induction fuel with
  | zero => intro h selId cov remId; rfl
  | succ n ih =>
    intro h selId cov remId
    show (if cov.length < req.length ∧ h.get remId ≠ [] then
        match findViableSplit req cov (h.get remId) with
        | none => h
        | some (before, selectedItem, after) =>
          if 4 ≤ (h.get selId ++ [selectedItem]).length then
            (h.set selId (h.get selId ++ [selectedItem])).set remId (before ++ after)
          else greedyGoH req n ((h.set selId (h.get selId ++ [selectedItem])).set remId
            (before ++ after)) selId (addCats cov (getItemCategories selectedItem)) remId
      else h).arrays.length = h.arrays.length
    by_cases hcond : cov.length < req.length ∧ h.get remId ≠ []
    · rw [if_pos hcond]
      cases hsplit : findViableSplit req cov (h.get remId) with
      | none => rfl
      | some triple =>
        obtain ⟨before, selIt, after⟩ := triple
        dsimp only
        by_cases hlen : 4 ≤ (h.get selId ++ [selIt]).length
        · rw [if_pos hlen, Heap.set_length, Heap.set_length]
        · rw [if_neg hlen, ih, Heap.set_length, Heap.set_length]
    · rw [if_neg hcond]

lemma Heap.get_set_eq (h : Heap) (j : Nat) (xs : List Item) (hj : j < h.arrays.length) :
    (h.set j xs).get j = xs := by
  unfold Heap.get Heap.set
  simp [List.getD, List.getElem?_set_self hj]

lemma Heap.alloc_length (h : Heap) (xs : List Item) :
    (h.alloc xs).1.arrays.length = h.arrays.length + 1 := by
  simp [Heap.alloc]

lemma Heap.alloc_snd (h : Heap) (xs : List Item) :
    (h.alloc xs).2 = h.arrays.length := rfl

lemma Heap.get_alloc_new (h : Heap) (xs : List Item) :
    (h.alloc xs).1.get h.arrays.length = xs := by
  unfold Heap.get Heap.alloc
  simp [List.getD]

lemma getAvailableItemsH_spec (h : Heap) (itemsId : Nat) (groceryList : List String)
    (excludeItems : List Item) :
    (getAvailableItemsH h itemsId groceryList excludeItems).2 = h.arrays.length ∧
    (getAvailableItemsH h itemsId groceryList excludeItems).1.arrays.length =
      h.arrays.length + 1 ∧
    (getAvailableItemsH h itemsId groceryList excludeItems).1.get h.arrays.length =
      getAvailableItems (h.get itemsId) groceryList excludeItems := by
  refine ⟨rfl, ?_, ?_⟩
  · show ((h.alloc _).1.set _ _).arrays.length = _
    rw [Heap.set_length, Heap.alloc_length]
  · show ((h.alloc _).1.set h.arrays.length _).get h.arrays.length = _
    rw [Heap.get_set_eq _ _ _ (by rw [Heap.alloc_length]; omega)]
    rfl

lemma getAvailableItemsH_frame (h : Heap) (itemsId : Nat) (groceryList : List String)
    (excludeItems : List Item) (i : Nat) (hi : i < h.arrays.length) :
    (getAvailableItemsH h itemsId groceryList excludeItems).1.get i = h.get i := by
  show ((h.alloc _).1.set h.arrays.length _).get i = _
  rw [Heap.get_set_ne _ _ _ _ (Nat.ne_of_lt hi), Heap.get_alloc_old _ _ _ hi]

lemma findGreedySolutionH_frame (h : Heap) (req : List String) (availId : Nat)
    (i : Nat) (hi : i < h.arrays.length) :
    (findGreedySolutionH h req availId).1.get i = h.get i := by
  show (greedyGoH req (h.get availId).length ((h.alloc []).1.alloc (h.get availId)).1
      (h.alloc []).2 [] ((h.alloc []).1.alloc (h.get availId)).2).get i = _
  rw [greedyGoH_frame req _ _ _ _ _ _
      (by simp only [Heap.alloc_snd]; omega)
      (by simp only [Heap.alloc_snd, Heap.alloc_length]; omega),
    Heap.get_alloc_old _ _ _ (by simp only [Heap.alloc_length]; omega),
    Heap.get_alloc_old _ _ _ hi]

/-- The instrumented greedy run computes the pure greedy run on the two
arrays' contents. -/
lemma greedyGoH_get_sel (req : List String) :
    ∀ (fuel : Nat) (h : Heap) (selId : Nat) (cov : List String) (remId : Nat),
    selId ≠ remId → selId < h.arrays.length → remId < h.arrays.length →
    (greedyGoH req fuel h selId cov remId).get selId =
      greedyGo req fuel (h.get selId) cov (h.get remId) := by
  intro fuel
  induction fuel with
  | zero => intro h selId cov remId _ _ _; rfl
  | succ n ih =>
    intro h selId cov remId hne hsel hrem
    rw [greedyGo_succ]
    show (if cov.length < req.length ∧ h.get remId ≠ [] then
        match findViableSplit req cov (h.get remId) with
        | none => h
        | some (before, selectedItem, after) =>
          if 4 ≤ (h.get selId ++ [selectedItem]).length then
            (h.set selId (h.get selId ++ [selectedItem])).set remId (before ++ after)
          else greedyGoH req n ((h.set selId (h.get selId ++ [selectedItem])).set remId
            (before ++ after)) selId (addCats cov (getItemCategories selectedItem)) remId
      else h).get selId = _
    by_cases hcond : cov.length < req.length ∧ h.get remId ≠ []
    · rw [if_pos hcond, if_pos hcond]
      cases hsplit : findViableSplit req cov (h.get remId) with
      | none => rfl
      | some triple =>
        obtain ⟨before, selIt, after⟩ := triple
        dsimp only
        by_cases hlen : 4 ≤ (h.get selId ++ [selIt]).length
        · rw [if_pos hlen, if_pos hlen, Heap.get_set_ne _ _ _ _ hne,
            Heap.get_set_eq _ _ _ hsel]
        · rw [if_neg hlen, if_neg hlen]
          rw [ih _ _ _ _ hne (by rw [Heap.set_length, Heap.set_length]; exact hsel)
            (by rw [Heap.set_length, Heap.set_length]; exact hrem)]
          rw [Heap.get_set_ne _ _ _ _ hne, Heap.get_set_eq _ _ _ hsel,
            Heap.get_set_eq _ _ _ (by rw [Heap.set_length]; exact hrem)]
    · rw [if_neg hcond, if_neg hcond]

/-- The instrumented greedy phase returns the pure greedy result. -/
lemma findGreedySolutionH_agree (h : Heap) (req : List String) (availId : Nat) :
    (findGreedySolutionH h req availId).2 = findGreedySolution req (h.get availId) := by
  show (greedyGoH req (h.get availId).length ((h.alloc []).1.alloc (h.get availId)).1
      (h.alloc []).2 [] ((h.alloc []).1.alloc (h.get availId)).2).get (h.alloc []).2 = _
  rw [greedyGoH_get_sel req _ _ _ _ _
      (by simp only [Heap.alloc_snd, Heap.alloc_length]; omega)
      (by simp only [Heap.alloc_snd, Heap.alloc_length]; omega)
      (by simp only [Heap.alloc_snd, Heap.alloc_length]; omega)]
  have g1 : ((h.alloc []).1.alloc (h.get availId)).1.get (h.alloc []).2 = [] := by
    rw [Heap.alloc_snd,
      Heap.get_alloc_old _ _ _ (by simp only [Heap.alloc_length]; omega),
      Heap.get_alloc_new]
  have g2 : ((h.alloc []).1.alloc (h.get availId)).1.get
      ((h.alloc []).1.alloc (h.get availId)).2 = h.get availId := by
    rw [Heap.alloc_snd]
    exact Heap.get_alloc_new (h.alloc []).1 (h.get availId)
  rw [g1, g2]
  rfl

lemma findOptimalItemCombinationH_frame (h : Heap) (req : List String) (availId : Nat)
    (i : Nat) (hi : i < h.arrays.length) :
    (findOptimalItemCombinationH h req availId).1.get i = h.get i := by
  unfold findOptimalItemCombinationH
  cases findSingleItemSolution req (h.get availId) with
  | some it => rfl
  | none => exact findGreedySolutionH_frame h req availId i hi

lemma findOptimalItemCombinationH_agree (h : Heap) (req : List String) (availId : Nat) :
    (findOptimalItemCombinationH h req availId).2 =
      findOptimalItemCombination req (h.get availId) := by
  unfold findOptimalItemCombinationH findOptimalItemCombination
  cases findSingleItemSolution req (h.get availId) with
  | some it => rfl
  | none => exact findGreedySolutionH_agree h req availId

/-- C9. `generateReplacement` borrows the meal and mutates nothing that
existed before the call: the meal's items array is unchanged, every
pre-existing array (sibling meals included) is unchanged, and the
instrumented run returns exactly what the pure model returns — the computed
replacements are only handed back to the caller. -/
theorem claim9_replacement_mutation_free (h : Heap) (itemsId : Nat)
    (groceryList : List String) (mealItemsId : Nat) (itemIndexToReplace : Nat) :
    (mealItemsId < h.arrays.length →
      (generateReplacementH h itemsId groceryList mealItemsId itemIndexToReplace).1.get
        mealItemsId = h.get mealItemsId) ∧
    (∀ i, i < h.arrays.length →
      (generateReplacementH h itemsId groceryList mealItemsId itemIndexToReplace).1.get i =
        h.get i) ∧
    (∀ m : Meal, itemsId < h.arrays.length → m.items = h.get mealItemsId →
      (generateReplacementH h itemsId groceryList mealItemsId itemIndexToReplace).2 =
        generateReplacement (h.get itemsId) groceryList m itemIndexToReplace) := by
  have hframe : ∀ i, i < h.arrays.length →
      (generateReplacementH h itemsId groceryList mealItemsId itemIndexToReplace).1.get i =
        h.get i := by
    intro i hi
    unfold generateReplacementH
    by_cases hneed : (getItemCategories ((h.get mealItemsId).getD itemIndexToReplace
        default)).filter (fun cat => ¬ (coveredByOthersOf (((h.get mealItemsId).enum.filter
        (fun p => p.1 ≠ itemIndexToReplace)).map Prod.snd)).contains cat) = []
    · rw [if_pos hneed]
      exact Heap.get_alloc_old _ _ _ hi
    · rw [if_neg hneed]
      have hi1 : i < (h.alloc (((h.get mealItemsId).enum.filter
          (fun p => p.1 ≠ itemIndexToReplace)).map Prod.snd)).1.arrays.length := by
        rw [Heap.alloc_length]; omega
      have hi2 : i < (getAvailableItemsH (h.alloc (((h.get mealItemsId).enum.filter
          (fun p => p.1 ≠ itemIndexToReplace)).map Prod.snd)).1 itemsId groceryList
          (((h.get mealItemsId).getD itemIndexToReplace default) ::
            (((h.get mealItemsId).enum.filter
              (fun p => p.1 ≠ itemIndexToReplace)).map Prod.snd))).1.arrays.length := by
        rw [(getAvailableItemsH_spec _ _ _ _).2.1, Heap.alloc_length]; omega
      rw [findOptimalItemCombinationH_frame _ _ _ _ hi2,
        getAvailableItemsH_frame _ _ _ _ _ hi1, Heap.get_alloc_old _ _ _ hi]
  refine ⟨fun hm => hframe mealItemsId hm, hframe, ?_⟩
  intro m hitems hm
  unfold generateReplacementH generateReplacement
  rw [← hm]
  by_cases hneed : (getItemCategories (m.items.getD itemIndexToReplace default)).filter
      (fun cat => ¬ (coveredByOthersOf ((m.items.enum.filter
        (fun p => p.1 ≠ itemIndexToReplace)).map Prod.snd)).contains cat) = []
  · rw [if_pos hneed, if_pos hneed]
  · rw [if_neg hneed, if_neg hneed]
    rw [findOptimalItemCombinationH_agree]
    have hspec := getAvailableItemsH_spec (h.alloc ((m.items.enum.filter
        (fun p => p.1 ≠ itemIndexToReplace)).map Prod.snd)).1 itemsId groceryList
      ((m.items.getD itemIndexToReplace default) ::
        ((m.items.enum.filter (fun p => p.1 ≠ itemIndexToReplace)).map Prod.snd))
    rw [show (getAvailableItemsH _ itemsId groceryList _).2 =
        (h.alloc ((m.items.enum.filter (fun p => p.1 ≠ itemIndexToReplace)).map
          Prod.snd)).1.arrays.length from hspec.1, hspec.2.2,
      Heap.get_alloc_old _ _ _ hitems]

/-- Witness for C9 on a concrete two-array heap: array 0 the catalog, array
1 the meal's items. The meal array, and every pre-existing array, is intact
after the call, and the returned replacement equals the pure model's. -/
theorem claim9_replacement_mutation_free_witness :
    (generateReplacementH (Heap.mk [[cexItemA, cexItemY], [cexItemA]]) 0 [] 1 0).1.get 1 =
      (Heap.mk [[cexItemA, cexItemY], [cexItemA]]).get 1 ∧
    (generateReplacementH (Heap.mk [[cexItemA, cexItemY], [cexItemA]]) 0 [] 1 0).1.get 0 =
      (Heap.mk [[cexItemA, cexItemY], [cexItemA]]).get 0 ∧
    (generateReplacementH (Heap.mk [[cexItemA, cexItemY], [cexItemA]]) 0 [] 1 0).2 =
      generateReplacement ((Heap.mk [[cexItemA, cexItemY], [cexItemA]]).get 0) []
        cexMealA 0 :=
  ⟨(claim9_replacement_mutation_free (Heap.mk [[cexItemA, cexItemY], [cexItemA]])
      0 [] 1 0).1 (by decide),
   (claim9_replacement_mutation_free (Heap.mk [[cexItemA, cexItemY], [cexItemA]])
      0 [] 1 0).2.1 0 (by decide),
   (claim9_replacement_mutation_free (Heap.mk [[cexItemA, cexItemY], [cexItemA]])
      0 [] 1 0).2.2 cexMealA (by decide) (by decide)⟩

end ToddlerLunch
